import Mathlib

/-!
Shallow embedding of the configmap-replicator controller (the current
source variant: per-ConfigMap policy read from keys under the
configmap-replicator/ prefix, validated for allow/deny overlap, with
add, update and delete handlers fanned out across namespaces).

A ConfigMap is a record of its namespace, name, metadata entries and
data entries; the cluster state is the list of ConfigMaps; each event
handler of the controller is embedded as a state transformer on that
list, with the namespace enumeration passed in explicitly.
-/

/-- Annotation key namespacing root, `annotationKey` in the source. -/
def annoKey : String := "configmap-replicator"

/-- Suffix of the provenance key emitted on every replica. -/
def replicatedFromKey : String := "replicated-from"

/-- Suffix of the enablement flag key. -/
def replicationAllowedKey : String := "replication-allowed"

/-- Suffix of the allow-list key. -/
def allowedNamespacesKey : String := "allowed-namespaces"

/-- Suffix of the deny-list key. -/
def excludedNamespacesKey : String := "excluded-namespaces"

/-- Full annotation key, as built by fmt.Sprintf in the source. -/
def fullKey (k : String) : String := annoKey ++ "/" ++ k

/-- A ConfigMap: namespace, name, metadata entries and data entries. -/
structure ConfigMap where
  ns : String
  name : String
  annots : List (String × String)
  data : List (String × String)
deriving Repr, DecidableEq

/-- Lookup in a string-keyed association list (a Go map access). -/
def lookupKV : List (String × String) → String → Option String
  | [], _ => none
  | (k, v) :: rest, key => if k == key then some v else lookupKV rest key

/-- Go strconv.ParseBool: the accepted spellings of true and false,
anything else is an error (none). -/
def goParseBool (s : String) : Option Bool :=
  if s == "1" || s == "t" || s == "T" || s == "true" || s == "TRUE" || s == "True" then
    some true
  else if s == "0" || s == "f" || s == "F" || s == "false" || s == "FALSE" || s == "False" then
    some false
  else
    none

/-- Comma splitting over a character list, accumulator-style. -/
def splitCommaChars : List Char → List Char → List String
  | [], acc => [String.mk acc.reverse]
  | c :: rest, acc =>
    if c == ',' then String.mk acc.reverse :: splitCommaChars rest []
    else splitCommaChars rest (c :: acc)

/-- Go strings.Split(s, ","): the empty string splits to [""], never
to the empty list. -/
def goSplitComma (s : String) : List String := splitCommaChars s.data []

/-- utils.ListContains from the source. -/
def listContains (s : List String) (e : String) : Bool := s.contains e

/-- utils.SlicesOverlap from the source: some element of slice2 occurs
in slice1 (the map of seen elements is membership in slice1). -/
def slicesOverlap (slice1 slice2 : List String) : Bool :=
  slice2.any (fun e => slice1.contains e)

/-- replicateEnabled: the enablement flag must be present and parse to
true; absent or unparsable means disabled. -/
def replicateEnabled (cm : ConfigMap) : Bool :=
  match lookupKV cm.annots (fullKey replicationAllowedKey) with
  | none => false
  | some v =>
    match goParseBool v with
    | none => false
    | some b => b

/-- getAllowedNamespaces: absent key gives the empty list, otherwise
the comma-split annotation value. -/
def getAllowedNamespaces (cm : ConfigMap) : List String :=
  match lookupKV cm.annots (fullKey allowedNamespacesKey) with
  | none => []
  | some v => goSplitComma v

/-- getExcludedNamespaces: absent key gives the empty list, otherwise
the comma-split annotation value. -/
def getExcludedNamespaces (cm : ConfigMap) : List String :=
  match lookupKV cm.annots (fullKey excludedNamespacesKey) with
  | none => []
  | some v => goSplitComma v

/-- validateConfiguration: true when the per-object configuration is
accepted, that is when the allow and deny lists do not overlap. -/
def validateConfiguration (cm : ConfigMap) : Bool :=
  !(slicesOverlap (getAllowedNamespaces cm) (getExcludedNamespaces cm))

/-- The cluster state: every ConfigMap currently in the store. -/
abbrev Store := List ConfigMap

/-- Store read scoped to (namespace, name); a k8s Get. -/
def getCM : Store → String → String → Option ConfigMap
  | [], _, _ => none
  | c :: rest, ns, name =>
    if c.ns == ns && c.name == name then some c else getCM rest ns name

/-- How many objects of the store carry the given (namespace, name). -/
def countKey (st : Store) (ns name : String) : Nat :=
  (st.filter (fun c => c.ns == ns && c.name == name)).length

/-- A k8s Update: replaces the object at the ConfigMap's own key. -/
def storeUpdate (st : Store) (cm : ConfigMap) : Store :=
  st.map (fun c => if c.ns == cm.ns && c.name == cm.name then cm else c)

/-- A k8s Delete scoped to (namespace, name). -/
def storeDelete (st : Store) (ns name : String) : Store :=
  st.filter (fun c => !(c.ns == ns && c.name == name))

/-- The replica object built by createConfigMap and updateConfigMap in
the source: same name and data as the source ConfigMap, metadata that
holds exactly the provenance entry. -/
def mkReplica (cm : ConfigMap) (ns : String) : ConfigMap :=
  { ns := ns
    name := cm.name
    annots := [(fullKey replicatedFromKey, cm.ns ++ "_" ++ cm.name)]
    data := cm.data }

/-- createConfigMap: a k8s Create of the replica; if an object of the
same key already exists the API rejects it (AlreadyExists) and the
controller only logs, leaving the store unchanged. -/
def createConfigMap (st : Store) (cm : ConfigMap) (ns : String) : Store :=
  let newConfigMap := mkReplica cm ns
  match getCM st ns newConfigMap.name with
  | some _ => st
  | none => newConfigMap :: st

/-- updateConfigMap: Get then, when absent, Create, otherwise Update
with the freshly built replica object; no provenance inspection. -/
def updateConfigMap (st : Store) (cm : ConfigMap) (ns : String) : Store :=
  let updatedConfigMap := mkReplica cm ns
  match getCM st ns updatedConfigMap.name with
  | none => updatedConfigMap :: st
  | some _ => storeUpdate st updatedConfigMap

/-- addConfigMapAcrossNamespaces: validate, check enablement, then in
allow-list mode create in every allow-list namespace verbatim, else
create in every listed namespace that is neither the source namespace
nor deny-listed. -/
def addConfigMapAcrossNamespaces (allNs : List String) (cm : ConfigMap) (st : Store) : Store :=
  if !(validateConfiguration cm) then st
  else if replicateEnabled cm then
    let allowedNamespaces := getAllowedNamespaces cm
    if allowedNamespaces.length > 0 then
      allowedNamespaces.foldl (fun s ns => createConfigMap s cm ns) st
    else
      allNs.foldl
        (fun s ns =>
          if cm.ns == ns then s
          else if listContains (getExcludedNamespaces cm) ns then s
          else createConfigMap s cm ns) st
  else st

/-- updateConfigMapAcrossNamespaces: same structure as the add path but
with updateConfigMap per target; only the updated snapshot argument is
ever consulted, exactly as in the source. -/
def updateConfigMapAcrossNamespaces (allNs : List String) (currentConfigMap updatedConfigMap : ConfigMap) (st : Store) : Store :=
  if !(validateConfiguration updatedConfigMap) then st
  else if replicateEnabled updatedConfigMap then
    let allowedNamespaces := getAllowedNamespaces updatedConfigMap
    if allowedNamespaces.length > 0 then
      allowedNamespaces.foldl (fun s ns => updateConfigMap s updatedConfigMap ns) st
    else
      allNs.foldl
        (fun s ns =>
          if updatedConfigMap.ns == ns then s
          else if listContains (getExcludedNamespaces updatedConfigMap) ns then s
          else updateConfigMap s updatedConfigMap ns) st
  else st

/-- deleteConfigMapAcrossNamespaces: validate, check enablement, then
delete the same-named object from every listed namespace that is
neither the source namespace nor deny-listed; the allow-list is never
consulted and no provenance check guards the delete. -/
def deleteConfigMapAcrossNamespaces (allNs : List String) (cm : ConfigMap) (st : Store) : Store :=
  if !(validateConfiguration cm) then st
  else if replicateEnabled cm then
    allNs.foldl
      (fun s ns =>
        if cm.ns == ns then s
        else if listContains (getExcludedNamespaces cm) ns then s
        else storeDelete s ns cm.name) st
  else st

/-- AddFunc of the informer in Run. -/
def handleAddEvent (allNs : List String) (obj : ConfigMap) (st : Store) : Store :=
  addConfigMapAcrossNamespaces allNs obj st

/-- UpdateFunc of the informer in Run: both local snapshots are cast
from currentObj, exactly as in the source, so newObj is ignored. -/
def handleUpdateEvent (allNs : List String) (currentObj newObj : ConfigMap) (st : Store) : Store :=
  let currentConfigMap := currentObj
  let updatedConfigMap := currentObj
  updateConfigMapAcrossNamespaces allNs currentConfigMap updatedConfigMap st

/-- DeleteFunc of the informer in Run. -/
def handleDeleteEvent (allNs : List String) (obj : ConfigMap) (st : Store) : Store :=
  deleteConfigMapAcrossNamespaces allNs obj st

/-- The target set iterated by the add and update paths: the allow-list
verbatim when non-empty, otherwise the listed namespaces minus the
source namespace and the deny-list. -/
def resolveTargets (allNs : List String) (cm : ConfigMap) : List String :=
  let allowedNamespaces := getAllowedNamespaces cm
  if allowedNamespaces.length > 0 then allowedNamespaces
  else allNs.filter (fun ns => !(cm.ns == ns) && !(listContains (getExcludedNamespaces cm) ns))

def fallbackTargets (allNs : List String) (cm : ConfigMap) : List String :=
  allNs.filter (fun ns => !(cm.ns == ns) && !(listContains (getExcludedNamespaces cm) ns))

def cfgSrc1 : ConfigMap :=
  { ns := "team1", name := "app-config",
    annots := [("configmap-replicator/replication-allowed", "true")],
    data := [("key", "value")] }

def cfgPlain1 : ConfigMap :=
  { ns := "team2", name := "app-config", annots := [], data := [("other", "unrelated")] }

def cfgOld2 : ConfigMap :=
  { ns := "team1", name := "app-config",
    annots := [("configmap-replicator/replication-allowed", "true")],
    data := [("k", "v1")] }

def cfgNew2 : ConfigMap :=
  { ns := "team1", name := "app-config",
    annots := [("configmap-replicator/replication-allowed", "true")],
    data := [("k", "v2")] }

def cfgSrc3 : ConfigMap :=
  { ns := "team1", name := "app-config",
    annots := [("configmap-replicator/replication-allowed", "true")],
    data := [("key", "value")] }

def cfgForeign3 : ConfigMap :=
  { ns := "team2", name := "app-config",
    annots := [("configmap-replicator/replicated-from", "otherns_app-config")],
    data := [("x", "y")] }

def cfgSelf4 : ConfigMap :=
  { ns := "team1", name := "app-config",
    annots := [("configmap-replicator/replication-allowed", "true"),
               ("configmap-replicator/allowed-namespaces", "team1,team2")],
    data := [("k", "v")] }

def cfgFb4 : ConfigMap :=
  { ns := "team1", name := "app-config",
    annots := [("configmap-replicator/replication-allowed", "true")],
    data := [("k", "v")] }

def cfgOver5 : ConfigMap :=
  { ns := "team1", name := "app-config",
    annots := [("configmap-replicator/replication-allowed", "true"),
               ("configmap-replicator/allowed-namespaces", "A"),
               ("configmap-replicator/excluded-namespaces", "A")],
    data := [("k", "v")] }

def cfgOff6 : ConfigMap :=
  { ns := "team1", name := "app-config", annots := [], data := [("a", "b")] }

def cfgAllow7 : ConfigMap :=
  { ns := "teamX", name := "app-config",
    annots := [("configmap-replicator/allowed-namespaces", "team1,team2")],
    data := [] }

def cfgDeny7 : ConfigMap :=
  { ns := "team1", name := "app-config",
    annots := [("configmap-replicator/excluded-namespaces", "kube-system")],
    data := [] }

def cfgAllow8 : ConfigMap :=
  { ns := "team1", name := "app-config",
    annots := [("configmap-replicator/replication-allowed", "true"),
               ("configmap-replicator/allowed-namespaces", "team2")],
    data := [("k", "v")] }

theorem foldl_filter_cond {α β : Type} (p : α → Bool) (f : β → α → β) :
    ∀ (l : List α) (b : β),
      (l.filter p).foldl f b = l.foldl (fun s x => if p x then f s x else s) b := by
  intro l
  induction l with
  | nil => intro b; rfl
  | cons a l ih =>
    intro b
    cases h : p a <;> simp [List.filter_cons, h, List.foldl_cons, ih]

theorem listContains_iff (l : List String) (x : String) : listContains l x = true ↔ x ∈ l := by
  simp [listContains, List.contains, List.elem_iff]

theorem resolveTargets_eq_fallback (allNs : List String) (cm : ConfigMap)
    (h : getAllowedNamespaces cm = []) :
    resolveTargets allNs cm = fallbackTargets allNs cm := by
  simp [resolveTargets, fallbackTargets, h]

theorem addAcross_eq_resolve (allNs : List String) (cm : ConfigMap) (st : Store) :
    addConfigMapAcrossNamespaces allNs cm st =
      if validateConfiguration cm && replicateEnabled cm then
        (resolveTargets allNs cm).foldl (fun s ns => createConfigMap s cm ns) st
      else st := by
  unfold addConfigMapAcrossNamespaces resolveTargets
  cases hv : validateConfiguration cm <;> cases he : replicateEnabled cm <;> simp
  split
  · rfl
  · rw [foldl_filter_cond]
    congr 1
    funext s ns
    cases h1 : (cm.ns == ns) <;> cases h2 : listContains (getExcludedNamespaces cm) ns <;>
      simp_all

theorem updateAcross_eq_resolve (allNs : List String) (prevCM cm : ConfigMap) (st : Store) :
    updateConfigMapAcrossNamespaces allNs prevCM cm st =
      if validateConfiguration cm && replicateEnabled cm then
        (resolveTargets allNs cm).foldl (fun s ns => updateConfigMap s cm ns) st
      else st := by
  unfold updateConfigMapAcrossNamespaces resolveTargets
  cases hv : validateConfiguration cm <;> cases he : replicateEnabled cm <;> simp
  split
  · rfl
  · rw [foldl_filter_cond]
    congr 1
    funext s ns
    cases h1 : (cm.ns == ns) <;> cases h2 : listContains (getExcludedNamespaces cm) ns <;>
      simp_all

theorem deleteAcross_eq_fold (allNs : List String) (cm : ConfigMap) (st : Store) :
    deleteConfigMapAcrossNamespaces allNs cm st =
      if validateConfiguration cm && replicateEnabled cm then
        (fallbackTargets allNs cm).foldl (fun s ns => storeDelete s ns cm.name) st
      else st := by
  unfold deleteConfigMapAcrossNamespaces fallbackTargets
  cases hv : validateConfiguration cm <;> cases he : replicateEnabled cm <;> simp
  rw [foldl_filter_cond]
  congr 1
  funext s ns
  cases h1 : (cm.ns == ns) <;> cases h2 : listContains (getExcludedNamespaces cm) ns <;>
    simp_all

theorem getCM_cons (c : ConfigMap) (rest : Store) (ns n : String) :
    getCM (c :: rest) ns n =
      if c.ns == ns && c.name == n then some c else getCM rest ns n := rfl

theorem getCM_createConfigMap (st : Store) (cm : ConfigMap) (a ns n : String) :
    getCM (createConfigMap st cm a) ns n =
      if getCM st a cm.name = none ∧ ns = a ∧ n = cm.name then some (mkReplica cm a)
      else getCM st ns n := by
  simp only [createConfigMap]
  cases ha : getCM st a (mkReplica cm a).name with
  | some c0 =>
    have h0 : getCM st a cm.name = some c0 := by simpa [mkReplica] using ha
    simp [h0]
  | none =>
    have h0 : getCM st a cm.name = none := by simpa [mkReplica] using ha
    simp only [h0, true_and]
    by_cases h1 : ns = a ∧ n = cm.name
    · obtain ⟨h1a, h1b⟩ := h1
      subst h1a; subst h1b
      simp [getCM_cons, mkReplica, h0]
    · rw [if_neg h1, getCM_cons]
      rcases not_and_or.mp h1 with h2 | h2
    
      · have hb : ((mkReplica cm a).ns == ns) = false := by
          simp [mkReplica]
          exact fun h => h2 h.symm
        simp [hb]
      · have hb : ((mkReplica cm a).name == n) = false := by
          simp [mkReplica]
          exact fun h => h2 h.symm
        simp [hb]

theorem getCM_foldl_create_of_some (cm : ConfigMap) :
    ∀ (l : List String) (st : Store) (ns n : String) (c : ConfigMap),
      getCM st ns n = some c →
      getCM (l.foldl (fun s x => createConfigMap s cm x) st) ns n = some c := by
  intro l
  induction l with
  | nil => intro st ns n c hg; simpa using hg
  | cons a l ih =>
    intro st ns n c hg
    rw [List.foldl_cons]
    apply ih
    rw [getCM_createConfigMap]
    rw [if_neg]
    · exact hg
    · rintro ⟨h0, h1, h2⟩
      rw [h1, h2] at hg
      rw [h0] at hg
      cases hg

theorem getCM_foldl_create_of_none (cm : ConfigMap) :
    ∀ (l : List String) (st : Store) (ns n : String),
      getCM st ns n = none →
      getCM (l.foldl (fun s x => createConfigMap s cm x) st) ns n =
        if ns ∈ l ∧ n = cm.name then some (mkReplica cm ns) else none := by
  intro l
  induction l with
  | nil => intro st ns n hg; simpa using hg
  | cons a l ih =>
    intro st ns n hg
    rw [List.foldl_cons]
    by_cases hk : ns = a ∧ n = cm.name
    · obtain ⟨hk1, hk2⟩ := hk
      have hcr : getCM (createConfigMap st cm a) ns n = some (mkReplica cm a) := by
        rw [getCM_createConfigMap, if_pos ⟨by rw [← hk1, ← hk2]; exact hg, hk1, hk2⟩]
      rw [getCM_foldl_create_of_some cm l _ ns n _ hcr]
      rw [if_pos ⟨by simp [hk1], hk2⟩, hk1]
    · have hcr : getCM (createConfigMap st cm a) ns n = none := by
        rw [getCM_createConfigMap, if_neg (fun h => hk ⟨h.2.1, h.2.2⟩)]
        exact hg
      rw [ih _ ns n hcr]
      by_cases hn : n = cm.name
      · have hns : ns ≠ a := fun h => hk ⟨h, hn⟩
        simp [List.mem_cons, hns, hn]
      · simp [hn]

theorem countKey_cons (c : ConfigMap) (rest : Store) (ns n : String) :
    countKey (c :: rest) ns n =
      countKey rest ns n + (if c.ns == ns && c.name == n then 1 else 0) := by
  simp only [countKey, List.filter_cons]
  split
  · simp [Nat.add_comm]
  · simp

theorem countKey_eq_zero_of_none :
    ∀ (st : Store) (ns n : String), getCM st ns n = none → countKey st ns n = 0 := by
  intro st
  induction st with
  | nil => intro ns n _; rfl
  | cons c rest ih =>
    intro ns n hg
    rw [getCM_cons] at hg
    rw [countKey_cons]
    cases hc : (c.ns == ns && c.name == n)
    · rw [hc] at hg
      simp only [Bool.false_eq_true, if_false] at hg
      simp [ih ns n hg, hc]
    · rw [hc] at hg
      simp at hg

theorem countKey_createConfigMap (st : Store) (cm : ConfigMap) (a ns n : String) :
    countKey (createConfigMap st cm a) ns n =
      countKey st ns n +
        (if getCM st a cm.name = none ∧ ns = a ∧ n = cm.name then 1 else 0) := by
  simp only [createConfigMap]
  cases ha : getCM st a (mkReplica cm a).name with
  | some c0 =>
    have h0 : getCM st a cm.name = some c0 := by simpa [mkReplica] using ha
    simp [h0]
  | none =>
    have h0 : getCM st a cm.name = none := by simpa [mkReplica] using ha
    rw [countKey_cons]
    simp only [h0, true_and, mkReplica]
    by_cases h1 : ns = a ∧ n = cm.name
    · obtain ⟨h1a, h1b⟩ := h1
      subst h1a; subst h1b
      simp
    · rw [if_neg h1]
      rcases not_and_or.mp h1 with h2 | h2
      · have hb : (a == ns) = false := by
          simp
          exact fun h => h2 h.symm
        simp [hb]
      · have hb : (cm.name == n) = false := by
          simp
          exact fun h => h2 h.symm
        simp [hb]

theorem countKey_foldl_create_of_some (cm : ConfigMap) :
    ∀ (l : List String) (st : Store) (ns : String) (c : ConfigMap),
      getCM st ns cm.name = some c →
      countKey (l.foldl (fun s x => createConfigMap s cm x) st) ns cm.name =
        countKey st ns cm.name := by
  intro l
  induction l with
  | nil => intro st ns c _; rfl
  | cons a l ih =>
    intro st ns c hg
    rw [List.foldl_cons]
    have hpr : getCM (createConfigMap st cm a) ns cm.name = some c := by
      rw [getCM_createConfigMap, if_neg]
      · exact hg
      · rintro ⟨h0, h1, _⟩
        rw [h1] at hg
        rw [h0] at hg
        cases hg
    rw [ih _ ns c hpr, countKey_createConfigMap, if_neg]
    · simp
    · rintro ⟨h0, h1, _⟩
      rw [h1] at hg
      rw [h0] at hg
      cases hg

theorem countKey_foldl_create_of_none (cm : ConfigMap) :
    ∀ (l : List String) (st : Store) (ns : String),
      getCM st ns cm.name = none →
      countKey (l.foldl (fun s x => createConfigMap s cm x) st) ns cm.name =
        if ns ∈ l then 1 else 0 := by
  intro l
  induction l with
  | nil =>
    intro st ns hg
    simp [countKey_eq_zero_of_none st ns cm.name hg]
  | cons a l ih =>
    intro st ns hg
    rw [List.foldl_cons]
    by_cases hk : ns = a
    · subst hk
      have hcr : getCM (createConfigMap st cm ns) ns cm.name = some (mkReplica cm ns) := by
        rw [getCM_createConfigMap, if_pos ⟨hg, rfl, rfl⟩]
      rw [countKey_foldl_create_of_some cm l _ ns _ hcr]
      rw [countKey_createConfigMap, if_pos ⟨hg, rfl, rfl⟩]
      rw [countKey_eq_zero_of_none st ns cm.name hg]
      simp
    · have hcr : getCM (createConfigMap st cm a) ns cm.name = none := by
        rw [getCM_createConfigMap, if_neg (fun h => hk h.2.1)]
        exact hg
      rw [ih _ ns hcr]
      simp [List.mem_cons, hk]

theorem foldl_create_id (cm : ConfigMap) :
    ∀ (l : List String) (st : Store),
      (∀ x ∈ l, getCM st x cm.name ≠ none) →
      l.foldl (fun s x => createConfigMap s cm x) st = st := by
  intro l
  induction l with
  | nil => intro st _; rfl
  | cons a l ih =>
    intro st h
    rw [List.foldl_cons]
    have hstep : createConfigMap st cm a = st := by
      simp only [createConfigMap]
      cases ha : getCM st a (mkReplica cm a).name with
      | some c0 => rfl
      | none =>
        exfalso
        exact h a (List.mem_cons_self a l) (by simpa [mkReplica] using ha)
    rw [hstep]
    exact ih st (fun x hx => h x (List.mem_cons_of_mem a hx))

theorem getCM_storeUpdate_ne (cm : ConfigMap) (ns2 n : String) (h : cm.ns ≠ ns2) :
    ∀ (st : Store), getCM (storeUpdate st cm) ns2 n = getCM st ns2 n := by
  intro st
  induction st with
  | nil => rfl
  | cons c rest ih =>
    simp only [storeUpdate, List.map_cons]
    rw [getCM_cons, getCM_cons]
    cases hrep : (c.ns == cm.ns && c.name == cm.name)
    · simp only [hrep, Bool.false_eq_true, if_false]
      split
      · rfl
      · exact ih
    · have hc : c.ns = cm.ns ∧ c.name = cm.name := by simpa using hrep
      have h1 : (cm.ns == ns2) = false := by simpa using h
      have h2 : (c.ns == ns2) = false := by
        rw [hc.1]
        exact h1
      simp only [hrep, if_true, h1, h2, Bool.false_and, Bool.false_eq_true, if_false]
      exact ih

theorem getCM_updateConfigMap_ne (st : Store) (cm : ConfigMap) (a ns2 n : String)
    (h : a ≠ ns2) :
    getCM (updateConfigMap st cm a) ns2 n = getCM st ns2 n := by
  simp only [updateConfigMap]
  cases ha : getCM st a (mkReplica cm a).name with
  | none =>
    rw [getCM_cons]
    have hb : ((mkReplica cm a).ns == ns2) = false := by simpa [mkReplica] using h
    simp [hb]
  | some c0 =>
    exact getCM_storeUpdate_ne (mkReplica cm a) ns2 n (by simpa [mkReplica] using h) st

theorem getCM_storeDelete_ne (a name2 ns2 n : String) (h : a ≠ ns2) :
    ∀ (st : Store), getCM (storeDelete st a name2) ns2 n = getCM st ns2 n := by
  intro st
  induction st with
  | nil => rfl
  | cons c rest ih =>
    simp only [storeDelete, List.filter_cons]
    cases hdel : !(c.ns == a && c.name == name2)
    · simp only [hdel, Bool.false_eq_true, if_false]
      have hc : c.ns = a ∧ c.name = name2 := by simpa using hdel
      have h2 : (c.ns == ns2) = false := by
        rw [hc.1]
        simpa using h
      rw [getCM_cons]
      simp only [h2, Bool.false_and, Bool.false_eq_true, if_false]
      exact ih
    · simp only [hdel, if_true]
      rw [getCM_cons, getCM_cons]
      split
      · rfl
      · exact ih

theorem getCM_foldl_preserved (f : Store → String → Store) (ns2 n : String)
    (hf : ∀ (s : Store) (x : String), x ≠ ns2 → getCM (f s x) ns2 n = getCM s ns2 n) :
    ∀ (l : List String) (st : Store), (∀ x ∈ l, x ≠ ns2) →
      getCM (l.foldl f st) ns2 n = getCM st ns2 n := by
  intro l
  induction l with
  | nil => intro st _; rfl
  | cons a l ih =>
    intro st h
    rw [List.foldl_cons, ih _ (fun x hx => h x (List.mem_cons_of_mem a hx))]
    exact hf st a (h a (List.mem_cons_self a l))

theorem mem_fallbackTargets_ne_src (allNs : List String) (cm : ConfigMap) (x : String)
    (h : x ∈ fallbackTargets allNs cm) : x ≠ cm.ns := by
  simp only [fallbackTargets, List.mem_filter] at h
  obtain ⟨-, h2⟩ := h
  have : (cm.ns == x) = false := by
    cases hb : (cm.ns == x)
    · rfl
    · rw [hb] at h2
      simp at h2
  intro hx
  rw [hx] at this
  simp at this

theorem replicateEnabled_eq_false (cm : ConfigMap)
    (h : lookupKV cm.annots (fullKey replicationAllowedKey) = none ∨
         ∃ v, lookupKV cm.annots (fullKey replicationAllowedKey) = some v ∧
           goParseBool v ≠ some true) :
    replicateEnabled cm = false := by
  unfold replicateEnabled
  rcases h with h | ⟨v, hv, hp⟩
  · rw [h]
  · rw [hv]
    cases hb : goParseBool v with
    | none => simp [hb]
    | some b =>
      cases b
      · simp [hb]
      · exact absurd hb hp

theorem validateConfiguration_eq_false (cm : ConfigMap)
    (h : ∃ p, p ∈ getAllowedNamespaces cm ∧ p ∈ getExcludedNamespaces cm) :
    validateConfiguration cm = false := by
  obtain ⟨p, h1, h2⟩ := h
  unfold validateConfiguration
  have hov : slicesOverlap (getAllowedNamespaces cm) (getExcludedNamespaces cm) = true := by
    unfold slicesOverlap
    rw [List.any_eq_true]
    exact ⟨p, h2, (listContains_iff _ _).mpr h1⟩
  rw [hov]
  rfl

theorem addAcross_noop (allNs : List String) (cm : ConfigMap) (st : Store)
    (h : validateConfiguration cm = false ∨ replicateEnabled cm = false) :
    addConfigMapAcrossNamespaces allNs cm st = st := by
  rw [addAcross_eq_resolve]
  rcases h with h | h <;> rw [h] <;> simp

theorem updateAcross_noop (allNs : List String) (prevCM cm : ConfigMap) (st : Store)
    (h : validateConfiguration cm = false ∨ replicateEnabled cm = false) :
    updateConfigMapAcrossNamespaces allNs prevCM cm st = st := by
  rw [updateAcross_eq_resolve]
  rcases h with h | h <;> rw [h] <;> simp

theorem deleteAcross_noop (allNs : List String) (cm : ConfigMap) (st : Store)
    (h : validateConfiguration cm = false ∨ replicateEnabled cm = false) :
    deleteConfigMapAcrossNamespaces allNs cm st = st := by
  rw [deleteAcross_eq_fold]
  rcases h with h | h <;> rw [h] <;> simp

/-- C1: the delete path deletes the same-named object of a target
namespace even though its provenance entry is absent. -/
theorem C1_delete_removes_unowned :
    replicateEnabled cfgSrc1 = true ∧
    lookupKV cfgPlain1.annots (fullKey replicatedFromKey) = none ∧
    getCM (deleteConfigMapAcrossNamespaces ["team1", "team2"] cfgSrc1 [cfgSrc1, cfgPlain1])
        "team2" "app-config" = none := by
  decide

/-- C2: the Updated handler binds both snapshots to the previous
object, so the new snapshot is ignored and the replica receives the
previous data mapping. -/
theorem C2_update_event_aliased :
    handleUpdateEvent ["team1", "team2"] cfgOld2 cfgNew2 [cfgOld2]
      = handleUpdateEvent ["team1", "team2"] cfgOld2 cfgOld2 [cfgOld2] ∧
    (getCM (handleUpdateEvent ["team1", "team2"] cfgOld2 cfgNew2 [cfgOld2])
        "team2" "app-config").map ConfigMap.data = some cfgOld2.data ∧
    cfgOld2.data ≠ cfgNew2.data := by
  decide

/-- C3: the update path overwrites an existing object whose provenance
names a different source, instead of skipping it. -/
theorem C3_update_overwrites_foreign :
    lookupKV cfgForeign3.annots (fullKey replicatedFromKey) = some "otherns_app-config" ∧
    "otherns_app-config" ≠ cfgSrc3.ns ++ "_" ++ cfgSrc3.name ∧
    getCM (updateConfigMapAcrossNamespaces ["team1", "team2"] cfgSrc3 cfgSrc3
        [cfgSrc3, cfgForeign3]) "team2" "app-config" = some (mkReplica cfgSrc3 "team2") := by
  decide

/-- C4 counterexample: with the allow-list naming the source namespace,
the resolved target set contains the source namespace and the update
path writes a replica into it. -/
theorem C4_source_in_allowlist_targets :
    cfgSelf4.ns = "team1" ∧
    "team1" ∈ resolveTargets ["team1", "team2", "kube-system"] cfgSelf4 ∧
    getCM (updateConfigMapAcrossNamespaces ["team1", "team2"] cfgSelf4 cfgSelf4 [cfgSelf4])
        "team1" "app-config" = some (mkReplica cfgSelf4 "team1") := by
  decide

/-- C4 theorem (amended): the delete path never changes any object of
the source namespace, unconditionally (it always iterates the fallback
targets, which exclude the source namespace); and in deny-list
fallback mode the source namespace is never in the resolved target set
and neither the add nor the update path changes any object of the
source namespace. -/
theorem C4_source_excluded_fallback (allNs : List String) (cm : ConfigMap) (st : Store) :
    (∀ n, getCM (deleteConfigMapAcrossNamespaces allNs cm st) cm.ns n = getCM st cm.ns n) ∧
    (getAllowedNamespaces cm = [] →
      cm.ns ∉ resolveTargets allNs cm ∧
      (∀ n, getCM (addConfigMapAcrossNamespaces allNs cm st) cm.ns n = getCM st cm.ns n) ∧
      (∀ prevCM n, getCM (updateConfigMapAcrossNamespaces allNs prevCM cm st) cm.ns n
         = getCM st cm.ns n)) := by
  constructor
  · intro n
    rw [deleteAcross_eq_fold]
    cases hc : (validateConfiguration cm && replicateEnabled cm)
    · simp
    · simp only [if_true]
      apply getCM_foldl_preserved
      · intro s x hx
        exact getCM_storeDelete_ne x cm.name cm.ns n (fun he => hx he) s
      · intro x hx
        exact mem_fallbackTargets_ne_src allNs cm x hx
  · intro h
    refine ⟨?_, ?_, ?_⟩
    · rw [resolveTargets_eq_fallback allNs cm h]
      intro hmem
      exact (mem_fallbackTargets_ne_src allNs cm cm.ns hmem) rfl
    · intro n
      rw [addAcross_eq_resolve]
      cases hc : (validateConfiguration cm && replicateEnabled cm)
      · simp
      · simp only [if_true]
        rw [resolveTargets_eq_fallback allNs cm h]
        apply getCM_foldl_preserved
        · intro s x hx
          rw [getCM_createConfigMap, if_neg]
          rintro ⟨-, h1, -⟩
          exact hx h1.symm
        · intro x hx
          exact mem_fallbackTargets_ne_src allNs cm x hx
    · intro prevCM n
      rw [updateAcross_eq_resolve]
      cases hc : (validateConfiguration cm && replicateEnabled cm)
      · simp
      · simp only [if_true]
        rw [resolveTargets_eq_fallback allNs cm h]
        apply getCM_foldl_preserved
        · intro s x hx
          exact getCM_updateConfigMap_ne s cm x cm.ns n (fun he => hx he)
        · intro x hx
          exact mem_fallbackTargets_ne_src allNs cm x hx

/-- C4 witness: the amended statement at a concrete fallback-mode
ConfigMap, and the unconditional delete conjunct also at a concrete
allow-mode ConfigMap whose allow-list names its own namespace. -/
theorem C4_source_excluded_fallback_witness :
    getAllowedNamespaces cfgFb4 = [] ∧
    cfgFb4.ns ∉ resolveTargets ["team1", "team2"] cfgFb4 ∧
    getCM (deleteConfigMapAcrossNamespaces ["team1", "team2"] cfgFb4 [cfgFb4])
        cfgFb4.ns "app-config" = getCM [cfgFb4] cfgFb4.ns "app-config" ∧
    getCM (deleteConfigMapAcrossNamespaces ["team1", "team2"] cfgSelf4 [cfgSelf4])
        cfgSelf4.ns "app-config" = getCM [cfgSelf4] cfgSelf4.ns "app-config" :=
  ⟨by decide,
   ((C4_source_excluded_fallback ["team1", "team2"] cfgFb4 [cfgFb4]).2 (by decide)).1,
   (C4_source_excluded_fallback ["team1", "team2"] cfgFb4 [cfgFb4]).1 "app-config",
   (C4_source_excluded_fallback ["team1", "team2"] cfgSelf4 [cfgSelf4]).1 "app-config"⟩

/-- C5: an allow-list and deny-list sharing a partition make the
configuration invalid and every handler leaves the store untouched. -/
theorem C5_overlap_no_mutation (allNs : List String) (cm : ConfigMap) (st : Store)
    (h : ∃ p, p ∈ getAllowedNamespaces cm ∧ p ∈ getExcludedNamespaces cm) :
    addConfigMapAcrossNamespaces allNs cm st = st ∧
    (∀ prevCM, updateConfigMapAcrossNamespaces allNs prevCM cm st = st) ∧
    deleteConfigMapAcrossNamespaces allNs cm st = st := by
  have hval : validateConfiguration cm = false := validateConfiguration_eq_false cm h
  exact ⟨addAcross_noop allNs cm st (Or.inl hval),
    fun prevCM => updateAcross_noop allNs prevCM cm st (Or.inl hval),
    deleteAcross_noop allNs cm st (Or.inl hval)⟩

/-- C5 witness: allow-list A and deny-list A at concrete inputs. -/
theorem C5_overlap_no_mutation_witness :
    addConfigMapAcrossNamespaces ["A", "B"] cfgOver5 [cfgOver5] = [cfgOver5] ∧
    updateConfigMapAcrossNamespaces ["A", "B"] cfgOver5 cfgOver5 [cfgOver5] = [cfgOver5] ∧
    deleteConfigMapAcrossNamespaces ["A", "B"] cfgOver5 [cfgOver5] = [cfgOver5] :=
  ⟨(C5_overlap_no_mutation ["A", "B"] cfgOver5 [cfgOver5] ⟨"A", by decide, by decide⟩).1,
   (C5_overlap_no_mutation ["A", "B"] cfgOver5 [cfgOver5] ⟨"A", by decide, by decide⟩).2.1
     cfgOver5,
   (C5_overlap_no_mutation ["A", "B"] cfgOver5 [cfgOver5] ⟨"A", by decide, by decide⟩).2.2⟩

/-- C6: an absent, unparsable or false enablement flag disables every
handler and no object is created, updated or deleted. -/
theorem C6_disabled_no_mutation (allNs : List String) (cm : ConfigMap) (st : Store)
    (h : lookupKV cm.annots (fullKey replicationAllowedKey) = none ∨
         ∃ v, lookupKV cm.annots (fullKey replicationAllowedKey) = some v ∧
           goParseBool v ≠ some true) :
    addConfigMapAcrossNamespaces allNs cm st = st ∧
    (∀ prevCM, updateConfigMapAcrossNamespaces allNs prevCM cm st = st) ∧
    deleteConfigMapAcrossNamespaces allNs cm st = st := by
  have hen : replicateEnabled cm = false := replicateEnabled_eq_false cm h
  exact ⟨addAcross_noop allNs cm st (Or.inr hen),
    fun prevCM => updateAcross_noop allNs prevCM cm st (Or.inr hen),
    deleteAcross_noop allNs cm st (Or.inr hen)⟩

/-- C6 witness: a ConfigMap without the enablement flag at concrete
inputs. -/
theorem C6_disabled_no_mutation_witness :
    addConfigMapAcrossNamespaces ["team1", "team2"] cfgOff6 [cfgOff6] = [cfgOff6] ∧
    updateConfigMapAcrossNamespaces ["team1", "team2"] cfgOff6 cfgOff6 [cfgOff6] = [cfgOff6] ∧
    deleteConfigMapAcrossNamespaces ["team1", "team2"] cfgOff6 [cfgOff6] = [cfgOff6] :=
  ⟨(C6_disabled_no_mutation ["team1", "team2"] cfgOff6 [cfgOff6] (Or.inl rfl)).1,
   (C6_disabled_no_mutation ["team1", "team2"] cfgOff6 [cfgOff6] (Or.inl rfl)).2.1 cfgOff6,
   (C6_disabled_no_mutation ["team1", "team2"] cfgOff6 [cfgOff6] (Or.inl rfl)).2.2⟩

/-- C7: non-empty allow-list gives exactly the allow-list as targets,
with no dependence on the namespace enumeration or the deny-list;
otherwise targets are the enumerated namespaces minus the source
namespace and the deny-list. -/
theorem C7_resolve_targets_spec (allNs : List String) (cm : ConfigMap) :
    (getAllowedNamespaces cm ≠ [] →
       resolveTargets allNs cm = getAllowedNamespaces cm) ∧
    (getAllowedNamespaces cm = [] →
       ∀ ns, ns ∈ resolveTargets allNs cm ↔
         ns ∈ allNs ∧ ns ≠ cm.ns ∧ ns ∉ getExcludedNamespaces cm) := by
  constructor
  · intro h
    simp only [resolveTargets]
    rw [if_pos (List.length_pos.mpr h)]
  · intro h ns
    rw [resolveTargets_eq_fallback allNs cm h]
    simp only [fallbackTargets, List.mem_filter, Bool.and_eq_true, Bool.not_eq_true']
    constructor
    · rintro ⟨h1, h2, h3⟩
      refine ⟨h1, ?_, ?_⟩
      · intro he
        rw [he] at h2
        simp at h2
      · intro hm
        rw [(listContains_iff _ _).mpr hm] at h3
        cases h3
    · rintro ⟨h1, h2, h3⟩
      refine ⟨h1, ?_, ?_⟩
      · cases hb : (cm.ns == ns)
        · rfl
        · exact absurd (beq_iff_eq.mp hb).symm h2
      · cases hb : listContains (getExcludedNamespaces cm) ns
        · rfl
        · exact absurd ((listContains_iff _ _).mp hb) h3

/-- C7 witness: both resolver modes at concrete inputs. -/
theorem C7_resolve_targets_spec_witness :
    resolveTargets ["x"] cfgAllow7 = getAllowedNamespaces cfgAllow7 ∧
    "team2" ∈ resolveTargets ["team1", "team2", "kube-system"] cfgDeny7 :=
  ⟨(C7_resolve_targets_spec ["x"] cfgAllow7).1 (by decide),
   ((C7_resolve_targets_spec ["team1", "team2", "kube-system"] cfgDeny7).2 (by decide)
       "team2").mpr ⟨by decide, by decide, by decide⟩⟩

/-- C8: the create path is idempotent as a state transformer, and on a
target initially lacking the name it leaves exactly one replica whose
content is the source data. -/
theorem C8_create_path_idempotent (allNs : List String) (cm : ConfigMap) (st : Store) :
    addConfigMapAcrossNamespaces allNs cm (addConfigMapAcrossNamespaces allNs cm st)
        = addConfigMapAcrossNamespaces allNs cm st ∧
    (validateConfiguration cm = true → replicateEnabled cm = true →
      ∀ ns, ns ∈ resolveTargets allNs cm → getCM st ns cm.name = none →
        countKey (addConfigMapAcrossNamespaces allNs cm st) ns cm.name = 1 ∧
        getCM (addConfigMapAcrossNamespaces allNs cm st) ns cm.name
          = some (mkReplica cm ns)) := by
  constructor
  · rw [addAcross_eq_resolve allNs cm (addConfigMapAcrossNamespaces allNs cm st)]
    cases hc : (validateConfiguration cm && replicateEnabled cm)
    · simp
    · simp only [if_true]
      rw [addAcross_eq_resolve allNs cm st, hc, if_pos rfl]
      apply foldl_create_id
      intro x hx
      cases hg : getCM st x cm.name with
      | some c =>
        rw [getCM_foldl_create_of_some cm _ st x cm.name c hg]
        simp
      | none =>
        rw [getCM_foldl_create_of_none cm _ st x cm.name hg, if_pos ⟨hx, rfl⟩]
        simp
  · intro hv he ns hns habs
    have hc : (validateConfiguration cm && replicateEnabled cm) = true := by
      rw [hv, he]
      rfl
    rw [addAcross_eq_resolve allNs cm st, hc, if_pos rfl]
    constructor
    · rw [countKey_foldl_create_of_none cm _ st ns habs, if_pos hns]
    · rw [getCM_foldl_create_of_none cm _ st ns cm.name habs, if_pos ⟨hns, rfl⟩]

/-- C8 witness: the create path at a concrete allow-list ConfigMap and
an initially empty store. -/
theorem C8_create_path_idempotent_witness :
    countKey (addConfigMapAcrossNamespaces [] cfgAllow8 []) "team2" cfgAllow8.name = 1 ∧
    getCM (addConfigMapAcrossNamespaces [] cfgAllow8 []) "team2" cfgAllow8.name
      = some (mkReplica cfgAllow8 "team2") :=
  (C8_create_path_idempotent [] cfgAllow8 []).2 (by decide) (by decide) "team2"
    (by decide) rfl
